import Mathlib

/-
  Verification of the prosperity_template repository.

  The development shallowly embeds the two source files:
  * template2.py — the Status market-state/history/position class and
    the Logger.truncate helper;
  * backtest.py — the replay harness's calculate_pnl settlement.

  Python dicts of price -> amount are modelled as association lists
  (List (Int × Int)); iteration order of a dict is the list order.
  Python floats are modelled as exact rationals (Rat).
-/

namespace Prosperity

/-- datamodel.OrderDepth: a per-symbol book with buy_orders and
sell_orders dicts mapping price to (signed) amount. -/
structure Book where
  buy_orders : List (Int × Int)
  sell_orders : List (Int × Int)
deriving DecidableEq

/-- Python max over the keys of a non-empty dict (0 on the empty dict,
which every caller guards against). -/
def maxKey : List (Int × Int) → Int
  | [] => 0
  | (p, _) :: rest => rest.foldl (fun m q => max m q.1) p

/-- Python min over the keys of a non-empty dict (0 on the empty dict,
which every caller guards against). -/
def minKey : List (Int × Int) → Int
  | [] => 0
  | (p, _) :: rest => rest.foldl (fun m q => min m q.1) p

mutual

/-- Status.best_bid (template2.py lines 401-413): max bid price when
buy_orders is non-empty, otherwise best_ask - 1.  The Python property
pair is mutually recursive, so the embedding carries explicit fuel;
fuel 0 stands for a call that has not terminated. -/
def bestBidFuel : Nat → Book → Option Int
  | 0, _ => none
  | n + 1, b =>
    if b.buy_orders.length > 0 then some (maxKey b.buy_orders)
    else (bestAskFuel n b).map (fun a => a - 1)

/-- Status.best_ask (template2.py lines 415-421): min ask price when
sell_orders is non-empty, otherwise best_bid + 1. -/
def bestAskFuel : Nat → Book → Option Int
  | 0, _ => none
  | n + 1, b =>
    if b.sell_orders.length > 0 then some (minKey b.sell_orders)
    else (bestBidFuel n b).map (fun a => a + 1)

end

/-- Status.mid (template2.py lines 423-425): (best_bid + best_ask) / 2,
propagating non-termination of either side. -/
def midFuel (n : Nat) (b : Book) : Option Rat :=
  match bestBidFuel n b, bestAskFuel n b with
  | some bb, some ba => some (((bb : Rat) + (ba : Rat)) / 2)
  | _, _ => none

/-- Status.vwap (template2.py lines 471-485): accumulate prc*amt over
buy orders and prc*abs(amt) over sell orders, divide by the summed
amounts; the Python code raises ZeroDivisionError when the total is 0,
modelled as none. -/
def vwap (b : Book) : Option Rat :=
  let v : Int := (b.buy_orders.map (fun pa => pa.1 * pa.2)).sum
    + (b.sell_orders.map (fun pa => pa.1 * |pa.2|)).sum
  let t : Int := (b.buy_orders.map (fun pa => pa.2)).sum
    + (b.sell_orders.map (fun pa => |pa.2|)).sum
  if t = 0 then none else some ((v : Rat) / (t : Rat))

/-- Stated from the spec for comparison: total volume as the sum of
quantity magnitudes over all retained levels on both sides. -/
def specTotalVolume (b : Book) : Int :=
  (b.buy_orders.map (fun pa => |pa.2|)).sum
    + (b.sell_orders.map (fun pa => |pa.2|)).sum

/-- Stated from the spec for comparison: sum of price * |qty| over all
retained levels on both sides. -/
def specWeightedSum (b : Book) : Int :=
  (b.buy_orders.map (fun pa => pa.1 * |pa.2|)).sum
    + (b.sell_orders.map (fun pa => pa.1 * |pa.2|)).sum

/-- Lookup with default 0, modelling Python dict access on the
position maps (first matching key wins, as in a dict without
duplicate keys). -/
def lookupD (m : List (String × Int)) (s : String) : Int :=
  match m with
  | [] => 0
  | (s', v) :: rest => if s' = s then v else lookupD rest s

/-- Status._position_limit (template2.py lines 126-135). -/
def position_limit_table : List (String × Int) :=
  [("RAINFOREST_RESIN", 50), ("KELP", 50), ("SQUID_INK", 50),
   ("CROISSANTS", 250), ("JAMS", 350), ("DJEMBES", 60),
   ("PICNIC_BASKET1", 60), ("PICNIC_BASKET2", 100)]

/-- Status._cls_rt_position_update (template2.py lines 276-280):
commit new_position into the realtime-position map when its magnitude
is within the product's limit, otherwise raise ValueError (modelled as
Except.error with the source's message). -/
def rt_position_update (limit : String → Int) (rt : String → Int)
    (product : String) (new_position : Int) :
    Except String (String → Int) :=
  if |new_position| ≤ limit product then
    Except.ok (fun p => if p = product then new_position else rt p)
  else
    Except.error ("New position exceeds position limit")

/-- A sequence of rt_position_update calls; a raising call unwinds
without touching the map, so the fold keeps the prior state there. -/
def run_rt_updates (limit : String → Int) (rt : String → Int)
    (reqs : List (String × Int)) : String → Int :=
  reqs.foldl (fun st r =>
    match rt_position_update limit st r.1 r.2 with
    | Except.ok st' => st'
    | Except.error _ => st) rt

/-- The class-level state read by Status.possible_buy_amt and
Status.possible_sell_amt: the configured limits, the realtime
(optimistic) positions, and state.position from the feed, in which a
product may be absent. -/
structure StatusCtx where
  position_limit : String → Int
  realtime_position : String → Int
  state_position : String → Option Int

/-- Status.position (template2.py lines 253-264): the feed position,
or 0 when the product is absent from state.position. -/
def Status.position (c : StatusCtx) (product : String) : Int :=
  match c.state_position product with
  | some p => p
  | none => 0

/-- Status.possible_buy_amt (template2.py lines 349-359). -/
def possible_buy_amt (c : StatusCtx) (product : String) : Int :=
  min (c.position_limit product - c.realtime_position product)
    (c.position_limit product - Status.position c product)

/-- Status.possible_sell_amt (template2.py lines 361-371). -/
def possible_sell_amt (c : StatusCtx) (product : String) : Int :=
  min (c.position_limit product + c.realtime_position product)
    (c.position_limit product + Status.position c product)

/-- The EMA series held by a Status instance (template2.py lines
168-169). -/
structure EmaState where
  ema_mid_35 : List Rat
  ema_mid_100 : List Rat
deriving DecidableEq

/-- Status.updates (template2.py lines 212-222), applied to the mid
price of the current tick: seed both series on the first call,
otherwise append last*(1-n)+n*mid for n = 2/36 resp. 2/101. -/
def updates (s : EmaState) (mid : Rat) : EmaState :=
  let n35 : Rat := 2 / 36
  let n100 : Rat := 2 / 101
  if s.ema_mid_35.length = 0 then
    { ema_mid_35 := s.ema_mid_35 ++ [mid],
      ema_mid_100 := s.ema_mid_100 ++ [mid] }
  else
    { ema_mid_35 :=
        s.ema_mid_35 ++ [s.ema_mid_35.getLast! * (1 - n35) + n35 * mid],
      ema_mid_100 :=
        s.ema_mid_100 ++ [s.ema_mid_100.getLast! * (1 - n100) + n100 * mid] }

/-- Folding Status.updates over a sequence of mid prices from the
freshly initialised instance. -/
def runUpdates (mids : List Rat) : EmaState :=
  mids.foldl updates { ema_mid_35 := [], ema_mid_100 := [] }

/-- The four field families of Status._hist_order_depths
(template2.py lines 141-156); together with a depth 1..3 they name the
12 per-symbol series. -/
inductive BookField
  | bidprc | bidamt | askprc | askamt
deriving DecidableEq

/-- The Python slice lst[-size:] for a natural size: for size = 0 the
start index -0 is 0, so the slice is the whole list; for size > 0 the
negative start index clamps at 0, yielding the last size elements. -/
def pyTailSlice (size : Nat) (l : List α) : List α :=
  if size = 0 then l else l.drop (l.length - size)

/-- Status.hist_order_depth (template2.py lines 225-237): index the
per-symbol series map by field name and depth and take the slice
lst[-size:].  The np.float32 cast is elementwise and dropped here;
values stay exact rationals. -/
def hist_order_depth (hist : BookField → Nat → List Rat)
    (field : BookField) (depth : Nat) (size : Nat) : List Rat :=
  pyTailSlice size (hist field depth)

/-- Stated from the spec for comparison: the last size elements of a
series in chronological order, all available elements when fewer than
size exist. -/
def specLastWindow (size : Nat) (l : List α) : List α :=
  l.drop (l.length - size)

/-- A concrete one-element recorded history, used to separate
hist_order_depth from specLastWindow at size 0. -/
def histEx : BookField → Nat → List Rat := fun _ _ => [5]

/-- The Python slice value[:k] for an integer k: a negative stop
counts from the end (clamping at 0), a non-negative stop takes at most
k elements. -/
def pyHeadSlice (k : Int) (l : List Char) : List Char :=
  if k < 0 then l.take ((l.length : Int) + k).toNat else l.take k.toNat

/-- Logger.truncate (template2.py lines 115-119): keep the string when
it fits in max_length, otherwise value[: max_length - 3] + "...". -/
def truncate (value : List Char) (max_length : Int) : List Char :=
  if (value.length : Int) ≤ max_length then value
  else pyHeadSlice (max_length - 3) value ++ [Char.ofNat 46, Char.ofNat 46, Char.ofNat 46]

/-- datamodel.Order as used by backtest.py: symbol, price, signed
quantity (positive buy, negative sell). -/
structure Order where
  symbol : String
  price : Int
  quantity : Int
deriving DecidableEq

/-- The iteration order of calculate_pnl's outer loops: for each
per-timestamp dict, for each (symbol, order list) item, for each
order.  backtest.py assumes symbol == product (its listings map the
symbol to itself), so the dict key doubles as the product. -/
def flatOrders (all_orders : List (List (String × List Order))) :
    List (String × Order) :=
  (all_orders.map (fun d =>
    (d.map (fun se => se.2.map (fun o => (se.1, o)))).flatten)).flatten

/-- final_inventory[product] = final_inventory.get(product, 0) +
order.quantity on a Python dict preserving insertion order, modelled
on an association list: update the first matching entry, else append. -/
def addInv (inv : List (String × Int)) (s : String) (q : Int) :
    List (String × Int) :=
  match inv with
  | [] => [(s, q)]
  | (s', v) :: rest =>
    if s' = s then (s', v + q) :: rest else (s', v) :: addInv rest s q

/-- The inventory-valuation price of calculate_pnl (backtest.py lines
164-184).  The Python code seeds best_bid/best_ask with -inf/+inf and
branches on which remained infinite: both book sides empty gives 0,
one empty side gives the other side's best price, otherwise the mid. -/
def refPrice (b : Book) : Rat :=
  if b.buy_orders = [] then
    (if b.sell_orders = [] then 0 else (minKey b.sell_orders : Rat))
  else if b.sell_orders = [] then (maxKey b.buy_orders : Rat)
  else ((maxKey b.buy_orders : Rat) + (minKey b.sell_orders : Rat)) / 2

/-- calculate_pnl (backtest.py lines 134-193): one pass over the order
ledger accumulating cash -= price * quantity and the per-product net
inventory, then for each product with nonzero inventory add
inventory * refPrice of its final book.  The final order_depths are a
total map here; a symbol the Python code would skip as absent behaves
like an empty book, whose refPrice is 0, so the sum is unchanged. -/
def calculate_pnl (all_orders : List (List (String × List Order)))
    (depths : String → Book) : Rat :=
  let scan := (flatOrders all_orders).foldl
    (fun acc so =>
      (acc.1 - ((so.2.price * so.2.quantity : Int) : Rat),
       addInv acc.2 so.1 so.2.quantity))
    ((0 : Rat), ([] : List (String × Int)))
  scan.2.foldl
    (fun c sq =>
      if sq.2 = 0 then c else c + (sq.2 : Rat) * refPrice (depths sq.1))
    scan.1

/-- Stated from the spec for comparison: cash is minus the sum of
price * quantity over every order of the ledger. -/
def specCash (all_orders : List (List (String × List Order))) : Rat :=
  -(((flatOrders all_orders).map
      (fun so => ((so.2.price * so.2.quantity : Int) : Rat))).sum)

/-- The net-inventory association list built by calculate_pnl's first
pass. -/
def netInventory (all_orders : List (List (String × List Order))) :
    List (String × Int) :=
  (flatOrders all_orders).foldl
    (fun m so => addInv m so.1 so.2.quantity) []

/-- Stated from the spec for comparison: the net position of a symbol
is the sum of the quantities of its orders in the ledger. -/
def netPosition (all_orders : List (List (String × List Order)))
    (s : String) : Int :=
  (((flatOrders all_orders).filter (fun so => so.1 = s)).map
    (fun so => so.2.quantity)).sum

/-! ### Helper lemmas -/

theorem getLastBang_eq_getLast (l : List Rat) (h : l ≠ []) :
    l.getLast! = l.getLast h := by
  match l with
  | [] => exact absurd rfl h
  | a :: as => simp [List.getLast!, List.getLast?_eq_getLast_of_ne_nil h]

theorem le_foldlMax (l : List (Int × Int)) (a : Int) :
    a ≤ l.foldl (fun m q => max m q.1) a := by
  induction l generalizing a with
  | nil => exact le_refl a
  | cons x t ih => exact le_trans (le_max_left a x.1) (ih (max a x.1))

theorem mem_le_foldlMax (l : List (Int × Int)) (a : Int) :
    ∀ x ∈ l, x.1 ≤ l.foldl (fun m q => max m q.1) a := by
  induction l generalizing a with
  | nil => intro x hx; exact absurd hx (List.not_mem_nil x)
  | cons y t ih =>
    intro x hx
    rcases List.mem_cons.mp hx with h | h
    · subst h
      exact le_trans (le_max_right a x.1) (le_foldlMax t (max a x.1))
    · exact ih (max a y.1) x h

theorem foldlMax_mem (l : List (Int × Int)) (a : Int) :
    l.foldl (fun m q => max m q.1) a = a ∨
      ∃ x ∈ l, l.foldl (fun m q => max m q.1) a = x.1 := by
  induction l generalizing a with
  | nil => exact Or.inl rfl
  | cons y t ih =>
    rcases ih (max a y.1) with h | ⟨x, hx, hfx⟩
    · rcases le_total a y.1 with hle | hle
      · exact Or.inr ⟨y, List.mem_cons_self y t, by
          rw [List.foldl_cons, h, max_eq_right hle]⟩
      · exact Or.inl (by rw [List.foldl_cons, h, max_eq_left hle])
    · exact Or.inr ⟨x, List.mem_cons_of_mem y hx, by
        rw [List.foldl_cons]; exact hfx⟩

theorem maxKey_mem (l : List (Int × Int)) (h : l ≠ []) :
    ∃ x ∈ l, maxKey l = x.1 := by
  match l with
  | (p, a) :: rest =>
    rcases foldlMax_mem rest p with heq | ⟨x, hx, hfx⟩
    · exact ⟨(p, a), List.mem_cons_self (p, a) rest, heq⟩
    · exact ⟨x, List.mem_cons_of_mem (p, a) hx, hfx⟩

theorem maxKey_ub (l : List (Int × Int)) : ∀ x ∈ l, x.1 ≤ maxKey l := by
  match l with
  | [] => intro x hx; exact absurd hx (List.not_mem_nil x)
  | (p, a) :: rest =>
    intro x hx
    rcases List.mem_cons.mp hx with h | h
    · rw [h]; exact le_foldlMax rest p
    · exact mem_le_foldlMax rest p x h

theorem foldlMin_le (l : List (Int × Int)) (a : Int) :
    l.foldl (fun m q => min m q.1) a ≤ a := by
  induction l generalizing a with
  | nil => exact le_refl a
  | cons x t ih => exact le_trans (ih (min a x.1)) (min_le_left a x.1)

theorem foldlMin_le_mem (l : List (Int × Int)) (a : Int) :
    ∀ x ∈ l, l.foldl (fun m q => min m q.1) a ≤ x.1 := by
  induction l generalizing a with
  | nil => intro x hx; exact absurd hx (List.not_mem_nil x)
  | cons y t ih =>
    intro x hx
    rcases List.mem_cons.mp hx with h | h
    · subst h
      exact le_trans (foldlMin_le t (min a x.1)) (min_le_right a x.1)
    · exact ih (min a y.1) x h

theorem foldlMin_mem (l : List (Int × Int)) (a : Int) :
    l.foldl (fun m q => min m q.1) a = a ∨
      ∃ x ∈ l, l.foldl (fun m q => min m q.1) a = x.1 := by
  induction l generalizing a with
  | nil => exact Or.inl rfl
  | cons y t ih =>
    rcases ih (min a y.1) with h | ⟨x, hx, hfx⟩
    · rcases le_total a y.1 with hle | hle
      · exact Or.inl (by rw [List.foldl_cons, h, min_eq_left hle])
      · exact Or.inr ⟨y, List.mem_cons_self y t, by
          rw [List.foldl_cons, h, min_eq_right hle]⟩
    · exact Or.inr ⟨x, List.mem_cons_of_mem y hx, by
        rw [List.foldl_cons]; exact hfx⟩

theorem minKey_mem (l : List (Int × Int)) (h : l ≠ []) :
    ∃ x ∈ l, minKey l = x.1 := by
  match l with
  | (p, a) :: rest =>
    rcases foldlMin_mem rest p with heq | ⟨x, hx, hfx⟩
    · exact ⟨(p, a), List.mem_cons_self (p, a) rest, heq⟩
    · exact ⟨x, List.mem_cons_of_mem (p, a) hx, hfx⟩

theorem minKey_lb (l : List (Int × Int)) : ∀ x ∈ l, minKey l ≤ x.1 := by
  match l with
  | [] => intro x hx; exact absurd hx (List.not_mem_nil x)
  | (p, a) :: rest =>
    intro x hx
    rcases List.mem_cons.mp hx with h | h
    · rw [h]; exact foldlMin_le rest p
    · exact foldlMin_le_mem rest p x h

theorem bestBidFuel_of_bids (b : Book) (h : b.buy_orders ≠ []) (n : Nat) :
    bestBidFuel (n + 1) b = some (maxKey b.buy_orders) := by
  have hl : b.buy_orders.length > 0 := List.length_pos.mpr h
  simp [bestBidFuel, hl]

theorem bestAskFuel_of_asks (b : Book) (h : b.sell_orders ≠ []) (n : Nat) :
    bestAskFuel (n + 1) b = some (minKey b.sell_orders) := by
  have hl : b.sell_orders.length > 0 := List.length_pos.mpr h
  simp [bestAskFuel, hl]

theorem bestBidFuel_of_no_bids (b : Book) (hb : b.buy_orders = [])
    (hs : b.sell_orders ≠ []) (n : Nat) :
    bestBidFuel (n + 2) b = some (minKey b.sell_orders - 1) := by
  have hl : ¬ b.buy_orders.length > 0 := by simp [hb]
  simp [bestBidFuel, hl, bestAskFuel_of_asks b hs n]

theorem bestAskFuel_of_no_asks (b : Book) (hs : b.sell_orders = [])
    (hb : b.buy_orders ≠ []) (n : Nat) :
    bestAskFuel (n + 2) b = some (maxKey b.buy_orders + 1) := by
  have hl : ¬ b.sell_orders.length > 0 := by simp [hs]
  simp [bestAskFuel, hl, bestBidFuel_of_bids b hb n]

theorem best_none_of_empty (b : Book) (hb : b.buy_orders = [])
    (hs : b.sell_orders = []) :
    ∀ n, bestBidFuel n b = none ∧ bestAskFuel n b = none := by
  intro n
  induction n with
  | zero => exact ⟨rfl, rfl⟩
  | succ m ih =>
    have hbl : ¬ b.buy_orders.length > 0 := by simp [hb]
    have hsl : ¬ b.sell_orders.length > 0 := by simp [hs]
    constructor
    · simp [bestBidFuel, hbl, ih.2]
    · simp [bestAskFuel, hsl, ih.1]

theorem run_rt_updates_cons (limit rt : String → Int)
    (r : String × Int) (t : List (String × Int)) :
    run_rt_updates limit rt (r :: t) =
      run_rt_updates limit
        (if |r.2| ≤ limit r.1 then (fun p => if p = r.1 then r.2 else rt p)
         else rt) t := by
  unfold run_rt_updates rt_position_update
  rw [List.foldl_cons]
  by_cases hc : |r.2| ≤ limit r.1 <;> simp [hc]

/-! ### Claims -/

/-- C1: for every sequence of rt_position_update calls, the optimistic
position stays within the per-symbol limit in magnitude; a call with
abs(new_position) within the limit commits new_position, and a call
beyond it raises (Except.error, the LimitExceeded condition) and the
step leaves the stored map unchanged. -/
theorem C1_rt_position_update_limit :
    (∀ (limit rt : String → Int) (reqs : List (String × Int)) (p : String),
      (∀ q, |rt q| ≤ limit q) →
      |run_rt_updates limit rt reqs p| ≤ limit p)
    ∧ (∀ (limit rt : String → Int) (prod : String) (v : Int),
      |v| ≤ limit prod →
      rt_position_update limit rt prod v =
        Except.ok (fun p => if p = prod then v else rt p))
    ∧ (∀ (limit rt : String → Int) (prod : String) (v : Int),
      limit prod < |v| →
      rt_position_update limit rt prod v =
        Except.error ("New position exceeds position limit"))
    ∧ (∀ (limit rt : String → Int) (prod : String) (v : Int),
      limit prod < |v| →
      run_rt_updates limit rt [(prod, v)] = rt) := by
  refine ⟨?_, ?_, ?_, ?_⟩
  · intro limit rt reqs p hinv
    induction reqs generalizing rt with
    | nil => exact hinv p
    | cons r t ih =>
      rw [run_rt_updates_cons]
      apply ih
      by_cases hc : |r.2| ≤ limit r.1
      · simp only [hc, if_true]
        intro q
        by_cases hq : q = r.1
        · simp only [hq, if_true]
          simpa [hq] using hc
        · simpa [hq] using hinv q
      · simpa [hc] using hinv
  · intro limit rt prod v h
    simp [rt_position_update, h]
  · intro limit rt prod v h
    simp [rt_position_update, not_le.mpr h]
  · intro limit rt prod v h
    rw [run_rt_updates_cons]
    simp [not_le.mpr h]
    rfl

theorem C1_rt_position_update_limit_witness :
    |run_rt_updates (fun _ => 50) (fun _ => 0)
        [(("KELP"), 10), (("KELP"), 999)] ("KELP")| ≤ (50 : Int)
    ∧ rt_position_update (fun _ => 50) (fun _ => 0) ("KELP") 10 =
        Except.ok (fun p => if p = ("KELP") then 10 else (fun _ : String => (0 : Int)) p)
    ∧ rt_position_update (fun _ => 50) (fun _ => 0) ("KELP") 51 =
        Except.error ("New position exceeds position limit")
    ∧ run_rt_updates (fun _ => 50) (fun _ => 0) [(("KELP"), 51)] =
        (fun _ : String => (0 : Int)) :=
  ⟨C1_rt_position_update_limit.1 (fun _ => 50) (fun _ => 0) _ _
      (fun _ => (by decide : |(0 : Int)| ≤ (50 : Int))),
   C1_rt_position_update_limit.2.1 (fun _ => 50) (fun _ => 0) _ _ (by decide),
   C1_rt_position_update_limit.2.2.1 (fun _ => 50) (fun _ => 0) _ _ (by decide),
   C1_rt_position_update_limit.2.2.2 (fun _ => 50) (fun _ => 0) _ _ (by decide)⟩

/-- C3: vwap equals sum(price * |qty|) / sum(|qty|) over all retained
levels on both sides of the current tick, and when the total volume is
zero the operation signals (the Python ZeroDivisionError, modelled as
none) instead of returning a number.  Bid quantities are non-negative
by the book convention, which the hypothesis records. -/
theorem C3_vwap_definition (b : Book)
    (hpos : ∀ pa ∈ b.buy_orders, 0 ≤ pa.2) :
    (specTotalVolume b = 0 → vwap b = none)
    ∧ (specTotalVolume b ≠ 0 →
        vwap b = some ((specWeightedSum b : Rat) / (specTotalVolume b : Rat))) := by
  have hbuyv : (b.buy_orders.map (fun pa => pa.2)).sum
      = (b.buy_orders.map (fun pa => |pa.2|)).sum := by
    congr 1
    apply List.map_congr_left
    intro pa hmem
    exact (abs_of_nonneg (hpos pa hmem)).symm
  have hbuyn : (b.buy_orders.map (fun pa => pa.1 * pa.2)).sum
      = (b.buy_orders.map (fun pa => pa.1 * |pa.2|)).sum := by
    congr 1
    apply List.map_congr_left
    intro pa hmem
    rw [abs_of_nonneg (hpos pa hmem)]
  have ht : (b.buy_orders.map (fun pa => pa.2)).sum
      + (b.sell_orders.map (fun pa => |pa.2|)).sum = specTotalVolume b := by
    rw [hbuyv]; rfl
  have hv : (b.buy_orders.map (fun pa => pa.1 * pa.2)).sum
      + (b.sell_orders.map (fun pa => pa.1 * |pa.2|)).sum = specWeightedSum b := by
    rw [hbuyn]; rfl
  constructor
  · intro h0
    simp only [vwap, ht, hv, h0, if_pos]
  · intro h0
    simp only [vwap, ht, hv, if_neg h0]

theorem C3_vwap_definition_witness :
    (∀ pa ∈ ([( (100 : Int), (5 : Int)), (99, 3)] : List (Int × Int)), 0 ≤ pa.2)
    ∧ specTotalVolume ⟨[(100, 5), (99, 3)], [(101, -4), (102, -2)]⟩ ≠ 0
    ∧ vwap ⟨[(100, 5), (99, 3)], [(101, -4), (102, -2)]⟩ =
        some ((specWeightedSum ⟨[(100, 5), (99, 3)], [(101, -4), (102, -2)]⟩ : Rat)
          / (specTotalVolume ⟨[(100, 5), (99, 3)], [(101, -4), (102, -2)]⟩ : Rat)) :=
  ⟨by decide, by decide,
   (C3_vwap_definition ⟨[(100, 5), (99, 3)], [(101, -4), (102, -2)]⟩
      (by decide)).2 (by decide)⟩

/-- C4: best_bid is the maximum bid price when bids exist and
otherwise best_ask - 1; best_ask is the minimum ask price when asks
exist and otherwise best_bid + 1; mid = (best_bid + best_ask) / 2.  In
particular bids at 100 with no asks give best_ask = 101, mid = 100.5.
Fuel 2 realizes the source's one-step mutual fallback. -/
theorem C4_best_prices_and_mid :
    (∀ b : Book, b.buy_orders ≠ [] →
      bestBidFuel 2 b = some (maxKey b.buy_orders)
      ∧ (∃ x ∈ b.buy_orders, maxKey b.buy_orders = x.1)
      ∧ (∀ x ∈ b.buy_orders, x.1 ≤ maxKey b.buy_orders))
    ∧ (∀ b : Book, b.buy_orders = [] → b.sell_orders ≠ [] →
      bestBidFuel 2 b = some (minKey b.sell_orders - 1))
    ∧ (∀ b : Book, b.sell_orders ≠ [] →
      bestAskFuel 2 b = some (minKey b.sell_orders)
      ∧ (∃ x ∈ b.sell_orders, minKey b.sell_orders = x.1)
      ∧ (∀ x ∈ b.sell_orders, minKey b.sell_orders ≤ x.1))
    ∧ (∀ b : Book, b.sell_orders = [] → b.buy_orders ≠ [] →
      bestAskFuel 2 b = some (maxKey b.buy_orders + 1))
    ∧ (∀ (b : Book) (bb ba : Int), bestBidFuel 2 b = some bb →
      bestAskFuel 2 b = some ba →
      midFuel 2 b = some (((bb : Rat) + (ba : Rat)) / 2))
    ∧ (bestAskFuel 2 ⟨[(100, 5)], []⟩ = some 101
      ∧ midFuel 2 ⟨[(100, 5)], []⟩ = some (201 / 2)) := by
  refine ⟨?_, ?_, ?_, ?_, ?_, ?_, ?_⟩
  · intro b h
    exact ⟨bestBidFuel_of_bids b h 1, maxKey_mem b.buy_orders h, maxKey_ub b.buy_orders⟩
  · intro b hb hs
    exact bestBidFuel_of_no_bids b hb hs 0
  · intro b h
    exact ⟨bestAskFuel_of_asks b h 1, minKey_mem b.sell_orders h, minKey_lb b.sell_orders⟩
  · intro b hs hb
    exact bestAskFuel_of_no_asks b hs hb 0
  · intro b bb ba h1 h2
    simp [midFuel, h1, h2]
  · decide
  · simp [midFuel, bestBidFuel, bestAskFuel, maxKey]
    norm_num

theorem C4_best_prices_and_mid_witness :
    bestBidFuel 2 ⟨[(100, 5)], []⟩ = some (maxKey [((100 : Int), (5 : Int))])
    ∧ bestBidFuel 2 ⟨[], [(101, -4)]⟩ = some (minKey [((101 : Int), (-4 : Int))] - 1)
    ∧ bestAskFuel 2 ⟨[], [(101, -4)]⟩ = some (minKey [((101 : Int), (-4 : Int))])
    ∧ bestAskFuel 2 ⟨[(100, 5)], []⟩ = some (maxKey [((100 : Int), (5 : Int))] + 1)
    ∧ midFuel 2 ⟨[(100, 5)], []⟩ = some (((100 : Rat) + (101 : Rat)) / 2) :=
  ⟨(C4_best_prices_and_mid.1 ⟨[(100, 5)], []⟩ (by decide)).1,
   C4_best_prices_and_mid.2.1 ⟨[], [(101, -4)]⟩ rfl (by decide),
   (C4_best_prices_and_mid.2.2.1 ⟨[], [(101, -4)]⟩ (by decide)).1,
   C4_best_prices_and_mid.2.2.2.1 ⟨[(100, 5)], []⟩ rfl (by decide),
   C4_best_prices_and_mid.2.2.2.2.1 ⟨[(100, 5)], []⟩ 100 101 (by decide) (by decide)⟩

/-- C7: possible_buy_amt is min(limit - optimistic, limit -
authoritative) and possible_sell_amt the mirrored
min(limit + optimistic, limit + authoritative), where optimistic is
the realtime position and authoritative the feed position (0 when the
product is absent from the feed map). -/
theorem C7_possible_amounts (c : StatusCtx) (product : String) :
    possible_buy_amt c product =
      min (c.position_limit product - c.realtime_position product)
        (c.position_limit product - (c.state_position product).getD 0)
    ∧ possible_sell_amt c product =
      min (c.position_limit product + c.realtime_position product)
        (c.position_limit product + (c.state_position product).getD 0) := by
  unfold possible_buy_amt possible_sell_amt Status.position
  cases c.state_position product <;> exact ⟨rfl, rfl⟩

/-- C9: best_bid and best_ask are mutually recursive through their
empty-side fallbacks; with fuel measuring recursion depth, they and
mid return a value at some fuel exactly when at least one side of the
book is non-empty, and on a book with both sides empty every fuel
yields none (the recursion never terminates). -/
theorem C9_mutual_recursion_termination (b : Book) :
    ((∃ n, (bestBidFuel n b).isSome) ↔ (b.buy_orders ≠ [] ∨ b.sell_orders ≠ []))
    ∧ ((∃ n, (bestAskFuel n b).isSome) ↔ (b.buy_orders ≠ [] ∨ b.sell_orders ≠ []))
    ∧ ((∃ n, (midFuel n b).isSome) ↔ (b.buy_orders ≠ [] ∨ b.sell_orders ≠ []))
    ∧ (b.buy_orders = [] → b.sell_orders = [] →
      ∀ n, bestBidFuel n b = none ∧ bestAskFuel n b = none ∧ midFuel n b = none) := by
  by_cases hb : b.buy_orders = [] <;> by_cases hs : b.sell_orders = []
  · have hnone := best_none_of_empty b hb hs
    have hmid : ∀ n, midFuel n b = none := by
      intro n
      simp [midFuel, (hnone n).1, (hnone n).2]
    refine ⟨?_, ?_, ?_, ?_⟩
    · constructor
      · rintro ⟨n, hn⟩
        rw [(hnone n).1] at hn
        exact absurd hn (by simp)
      · rintro (h | h) <;> exact absurd (by assumption) (by simp [hb, hs])
    · constructor
      · rintro ⟨n, hn⟩
        rw [(hnone n).2] at hn
        exact absurd hn (by simp)
      · rintro (h | h) <;> exact absurd (by assumption) (by simp [hb, hs])
    · constructor
      · rintro ⟨n, hn⟩
        rw [hmid n] at hn
        exact absurd hn (by simp)
      · rintro (h | h) <;> exact absurd (by assumption) (by simp [hb, hs])
    · intro _ _ n
      exact ⟨(hnone n).1, (hnone n).2, hmid n⟩
  · have h1 : bestBidFuel 2 b = some (minKey b.sell_orders - 1) :=
      bestBidFuel_of_no_bids b hb hs 0
    have h2 : bestAskFuel 2 b = some (minKey b.sell_orders) :=
      bestAskFuel_of_asks b hs 1
    have h3 : (midFuel 2 b).isSome := by simp [midFuel, h1, h2]
    refine ⟨⟨fun _ => Or.inr hs, fun _ => ⟨2, by simp [h1]⟩⟩,
      ⟨fun _ => Or.inr hs, fun _ => ⟨2, by simp [h2]⟩⟩,
      ⟨fun _ => Or.inr hs, fun _ => ⟨2, h3⟩⟩,
      fun _ hs' => absurd hs' hs⟩
  · have h1 : bestBidFuel 2 b = some (maxKey b.buy_orders) :=
      bestBidFuel_of_bids b hb 1
    have h2 : bestAskFuel 2 b = some (maxKey b.buy_orders + 1) :=
      bestAskFuel_of_no_asks b hs hb 0
    have h3 : (midFuel 2 b).isSome := by simp [midFuel, h1, h2]
    refine ⟨⟨fun _ => Or.inl hb, fun _ => ⟨2, by simp [h1]⟩⟩,
      ⟨fun _ => Or.inl hb, fun _ => ⟨2, by simp [h2]⟩⟩,
      ⟨fun _ => Or.inl hb, fun _ => ⟨2, h3⟩⟩,
      fun hb' => absurd hb' hb⟩
  · have h1 : bestBidFuel 2 b = some (maxKey b.buy_orders) :=
      bestBidFuel_of_bids b hb 1
    have h2 : bestAskFuel 2 b = some (minKey b.sell_orders) :=
      bestAskFuel_of_asks b hs 1
    have h3 : (midFuel 2 b).isSome := by simp [midFuel, h1, h2]
    refine ⟨⟨fun _ => Or.inl hb, fun _ => ⟨2, by simp [h1]⟩⟩,
      ⟨fun _ => Or.inl hb, fun _ => ⟨2, by simp [h2]⟩⟩,
      ⟨fun _ => Or.inl hb, fun _ => ⟨2, h3⟩⟩,
      fun hb' => absurd hb' hb⟩

theorem C9_mutual_recursion_termination_witness :
    bestBidFuel 3 ⟨[], []⟩ = none ∧ bestAskFuel 3 ⟨[], []⟩ = none
    ∧ midFuel 3 ⟨[], []⟩ = none :=
  (C9_mutual_recursion_termination ⟨[], []⟩).2.2.2 rfl rfl 3

/-- C5 counterexample: at size 0 the Python slice lst[-0:] is the whole
series, not the empty window, so the claim fails for size 0 on a
one-element series. -/
theorem C5_window_counterexample :
    hist_order_depth histEx BookField.bidprc 1 0 ≠
      specLastWindow 0 (histEx BookField.bidprc 1) := by
  decide

/-- C5 (amended to size ≥ 1): hist_order_depth returns the last size
elements of the named series in chronological order, and the whole
series without padding when fewer than size elements exist. -/
theorem C5_window_amended (hist : BookField → Nat → List Rat)
    (field : BookField) (depth : Nat) (size : Nat) (h : 1 ≤ size) :
    hist_order_depth hist field depth size =
      specLastWindow size (hist field depth)
    ∧ ((hist field depth).length ≤ size →
      hist_order_depth hist field depth size = hist field depth) := by
  have hne : size ≠ 0 := Nat.one_le_iff_ne_zero.mp h
  constructor
  · simp [hist_order_depth, pyTailSlice, specLastWindow, hne]
  · intro hlen
    simp [hist_order_depth, pyTailSlice, hne, Nat.sub_eq_zero_of_le hlen]

theorem C5_window_amended_witness :
    (1 : Nat) ≤ 1
    ∧ hist_order_depth histEx BookField.bidprc 1 1 =
        specLastWindow 1 (histEx BookField.bidprc 1) :=
  ⟨by decide, (C5_window_amended histEx BookField.bidprc 1 1 (by decide)).1⟩

/-- C6: the first updates call appends the current mid to both EMA
series; every later call appends last*(1-a) + a*mid with a = 2/36 for
the fast and a = 2/101 for the slow series; on mids [10, 12, 11] the
fast series starts [10, 10*(34/36) + 12*(2/36)]. -/
theorem C6_ema_updates :
    (∀ (s : EmaState) (mid : Rat), s.ema_mid_35 = [] →
      updates s mid =
        ⟨s.ema_mid_35 ++ [mid], s.ema_mid_100 ++ [mid]⟩)
    ∧ (∀ (s : EmaState) (mid : Rat) (h : s.ema_mid_35 ≠ [])
        (h' : s.ema_mid_100 ≠ []),
      updates s mid =
        ⟨s.ema_mid_35 ++
            [s.ema_mid_35.getLast h * (1 - 2 / 36) + (2 / 36) * mid],
          s.ema_mid_100 ++
            [s.ema_mid_100.getLast h' * (1 - 2 / 101) + (2 / 101) * mid]⟩)
    ∧ (runUpdates [10, 12, 11]).ema_mid_35.take 2 =
        [10, 10 * (34 / 36) + 12 * (2 / 36)] := by
  refine ⟨?_, ?_, ?_⟩
  · intro s mid h
    simp [updates, h]
  · intro s mid h h'
    have hlen : ¬ s.ema_mid_35.length = 0 := by simpa using h
    simp [updates, hlen, getLastBang_eq_getLast _ h, getLastBang_eq_getLast _ h']
  · simp [runUpdates, updates, List.getLast!, List.getLastD]
    norm_num

theorem C6_ema_updates_witness :
    updates ⟨[], []⟩ 10 = ⟨[10], [10]⟩
    ∧ updates ⟨[10], [10]⟩ 12 =
        ⟨[10, 10 * (1 - 2 / 36) + (2 / 36) * 12],
          [10, 10 * (1 - 2 / 101) + (2 / 101) * 12]⟩ :=
  ⟨C6_ema_updates.1 ⟨[], []⟩ 10 rfl,
   C6_ema_updates.2.1 ⟨[10], [10]⟩ 12 (by decide) (by decide)⟩

/-- C8: settlement on an empty order ledger returns PnL 0 regardless
of the final book snapshots. -/
theorem C8_empty_ledger_pnl (depths : String → Book) :
    calculate_pnl [] depths = 0 := rfl

/-- C10 counterexample: for max_length = 2 < 3 and a longer string the
code slices with a negative index, dropping one trailing character
instead of keeping the first max_length - 3 characters, so the claim's
shape fails there. -/
theorem C10_truncate_counterexample :
    truncate (String.toList ("abcde")) 2 ≠
      (String.toList ("abcde")).take (Int.toNat (2 - 3))
        ++ String.toList ("...") := by
  decide

/-- C10 (amended to max_length ≥ 3 in the truncating branch): a string
whose length is at most max_length is returned unchanged; a longer one
becomes its first max_length - 3 characters followed by "...", with
total length exactly max_length. -/
theorem C10_truncate_amended (value : List Char) (max_length : Int) :
    ((value.length : Int) ≤ max_length → truncate value max_length = value)
    ∧ (max_length < value.length → 3 ≤ max_length →
      truncate value max_length =
        value.take (max_length - 3).toNat ++ String.toList ("...")
      ∧ ((truncate value max_length).length : Int) = max_length) := by
  constructor
  · intro h
    simp [truncate, h]
  · intro h1 h2
    have hnotle : ¬ (value.length : Int) ≤ max_length := not_le.mpr h1
    have hk : ¬ (max_length - 3 < 0) := by omega
    have hmark : String.toList ("...") =
        [Char.ofNat 46, Char.ofNat 46, Char.ofNat 46] := rfl
    have heq : truncate value max_length =
        value.take (max_length - 3).toNat ++ String.toList ("...") := by
      rw [hmark]
      simp [truncate, hnotle, pyHeadSlice, hk]
    refine ⟨heq, ?_⟩
    have hle : (max_length - 3).toNat ≤ value.length := by omega
    rw [heq, List.length_append, List.length_take, hmark]
    simp only [List.length_cons, List.length_nil]
    rw [min_eq_left hle]
    omega

theorem C10_truncate_amended_witness :
    truncate (String.toList ("abcdefgh")) 6 =
      (String.toList ("abcdefgh")).take (Int.toNat (6 - 3))
        ++ String.toList ("...")
    ∧ ((truncate (String.toList ("abcdefgh")) 6).length : Int) = 6
    ∧ truncate (String.toList ("ab")) 6 = String.toList ("ab") :=
  ⟨((C10_truncate_amended (String.toList ("abcdefgh")) 6).2
      (by decide) (by decide)).1,
   ((C10_truncate_amended (String.toList ("abcdefgh")) 6).2
      (by decide) (by decide)).2,
   (C10_truncate_amended (String.toList ("ab")) 6).1 (by decide)⟩

theorem settle_scan_split (l : List (String × Order)) (c : Rat)
    (m : List (String × Int)) :
    l.foldl (fun acc so =>
      (acc.1 - ((so.2.price * so.2.quantity : Int) : Rat),
       addInv acc.2 so.1 so.2.quantity)) (c, m)
    = (l.foldl (fun c' so => c' - ((so.2.price * so.2.quantity : Int) : Rat)) c,
       l.foldl (fun m' so => addInv m' so.1 so.2.quantity) m) := by
  induction l generalizing c m with
  | nil => rfl
  | cons y t ih =>
    rw [List.foldl_cons, List.foldl_cons, List.foldl_cons]
    exact ih _ _

theorem foldl_sub_sum (l : List (String × Order)) (f : String × Order → Rat)
    (c : Rat) :
    l.foldl (fun a x => a - f x) c = c - (l.map f).sum := by
  induction l generalizing c with
  | nil => simp
  | cons y t ih =>
    rw [List.foldl_cons, ih]
    simp
    ring

theorem foldl_guard_add_sum (l : List (String × Int))
    (g : String × Int → Rat) (c : Rat) :
    l.foldl (fun a sq => if sq.2 = 0 then a else a + g sq) c
      = c + (l.map (fun sq => if sq.2 = 0 then 0 else g sq)).sum := by
  induction l generalizing c with
  | nil => simp
  | cons y t ih =>
    rw [List.foldl_cons]
    by_cases h : y.2 = 0
    · rw [if_pos h, ih]
      simp [h]
    · rw [if_neg h, ih]
      simp [h]
      ring

theorem lookupD_addInv (m : List (String × Int)) (s t : String) (q : Int) :
    lookupD (addInv m s q) t =
      if s = t then lookupD m t + q else lookupD m t := by
  induction m with
  | nil =>
    by_cases h : s = t <;> simp [addInv, lookupD, h]
  | cons y r ih =>
    obtain ⟨s', v⟩ := y
    by_cases h1 : s' = s
    · subst h1
      by_cases h2 : s' = t <;> simp [addInv, lookupD, h2]
    · have h1t : s = t → ¬ s' = t := fun hst hs't => h1 (hs't.trans hst.symm)
      by_cases h2 : s' = t
      · have hst : ¬ s = t := fun hst => h1t hst h2
        have hts : ¬ t = s := fun h => hst h.symm
        simp [addInv, lookupD, h1, h2, hst, hts]
      · simp [addInv, lookupD, h1, h2, ih]

theorem keys_addInv (m : List (String × Int)) (s : String) (q : Int) :
    (addInv m s q).map Prod.fst =
      if s ∈ m.map Prod.fst then m.map Prod.fst
      else m.map Prod.fst ++ [s] := by
  induction m with
  | nil => simp [addInv]
  | cons y r ih =>
    obtain ⟨s', v⟩ := y
    by_cases h1 : s' = s
    · subst h1
      simp [addInv]
    · have hss' : ¬ s = s' := fun h => h1 h.symm
      by_cases h2 : s ∈ r.map Prod.fst <;>
        simp [addInv, h1, ih, hss', h2]

theorem nodup_keys_addInv (m : List (String × Int)) (s : String) (q : Int)
    (h : (m.map Prod.fst).Nodup) :
    ((addInv m s q).map Prod.fst).Nodup := by
  rw [keys_addInv]
  by_cases h2 : s ∈ m.map Prod.fst
  · simpa [h2] using h
  · rw [if_neg h2]
    refine List.Nodup.append h (List.nodup_singleton s) ?_
    intro a ha hmem
    rw [List.mem_singleton] at hmem
    exact h2 (hmem ▸ ha)

theorem lookupD_foldl_addInv (l : List (String × Order))
    (m : List (String × Int)) (s : String) :
    lookupD (l.foldl (fun m' so => addInv m' so.1 so.2.quantity) m) s
      = lookupD m s
        + ((l.filter (fun so => so.1 = s)).map (fun so => so.2.quantity)).sum := by
  induction l generalizing m with
  | nil => simp
  | cons y t ih =>
    rw [List.foldl_cons, ih, lookupD_addInv]
    by_cases h : y.1 = s
    · simp [List.filter_cons, h]
      ring
    · simp [List.filter_cons, h]

theorem nodup_keys_foldl_addInv (l : List (String × Order))
    (m : List (String × Int)) (h : (m.map Prod.fst).Nodup) :
    (((l.foldl (fun m' so => addInv m' so.1 so.2.quantity) m)).map Prod.fst).Nodup := by
  induction l generalizing m with
  | nil => exact h
  | cons y t ih =>
    rw [List.foldl_cons]
    exact ih _ (nodup_keys_addInv m y.1 y.2.quantity h)

/-- C2: settlement computes cash = -sum(price*quantity) over the
ledger in one pass, accumulates per-symbol net inventory exactly, and
returns cash plus inventory * reference price for each symbol with
nonzero inventory, where the reference price is the final mid when
both book sides are populated, the populated side's best price when
one side is empty, and 0 when both are; the two-order example settles
to 25. -/
theorem C2_settlement_pnl :
    (∀ (ao : List (List (String × List Order))) (d : String → Book),
      calculate_pnl ao d = specCash ao +
        ((netInventory ao).map
          (fun sq => if sq.2 = 0 then 0 else (sq.2 : Rat) * refPrice (d sq.1))).sum)
    ∧ (∀ (ao : List (List (String × List Order))) (s : String),
      lookupD (netInventory ao) s = netPosition ao s)
    ∧ (∀ ao : List (List (String × List Order)),
      ((netInventory ao).map Prod.fst).Nodup)
    ∧ (∀ b : Book,
      (b.buy_orders ≠ [] → b.sell_orders ≠ [] →
        refPrice b = ((maxKey b.buy_orders : Rat) + (minKey b.sell_orders : Rat)) / 2)
      ∧ (b.buy_orders = [] → b.sell_orders ≠ [] →
        refPrice b = (minKey b.sell_orders : Rat))
      ∧ (b.sell_orders = [] → b.buy_orders ≠ [] →
        refPrice b = (maxKey b.buy_orders : Rat))
      ∧ (b.buy_orders = [] → b.sell_orders = [] → refPrice b = 0))
    ∧ calculate_pnl [[(("X"), [⟨"X", 100, 5⟩, ⟨"X", 105, -5⟩])]]
        (fun _ => ⟨[], []⟩) = 25 := by
  refine ⟨?_, ?_, ?_, ?_, ?_⟩
  · intro ao d
    have hsplit := settle_scan_split (flatOrders ao) 0 []
    calc calculate_pnl ao d
        = ((flatOrders ao).foldl
            (fun m' so => addInv m' so.1 so.2.quantity) []).foldl
            (fun c sq =>
              if sq.2 = 0 then c else c + (sq.2 : Rat) * refPrice (d sq.1))
            ((flatOrders ao).foldl
              (fun c' so => c' - ((so.2.price * so.2.quantity : Int) : Rat)) 0) := by
          unfold calculate_pnl
          rw [hsplit]
      _ = specCash ao +
            ((netInventory ao).map
              (fun sq => if sq.2 = 0 then 0 else (sq.2 : Rat) * refPrice (d sq.1))).sum := by
          rw [foldl_guard_add_sum _ (fun sq => (sq.2 : Rat) * refPrice (d sq.1))]
          rw [foldl_sub_sum _ (fun so => ((so.2.price * so.2.quantity : Int) : Rat))]
          simp [specCash, netInventory]
  · intro ao s
    have h := lookupD_foldl_addInv (flatOrders ao) [] s
    simpa [netInventory, netPosition, lookupD] using h
  · intro ao
    exact nodup_keys_foldl_addInv (flatOrders ao) [] (by simp)
  · intro b
    refine ⟨?_, ?_, ?_, ?_⟩
    · intro hb hs
      simp [refPrice, hb, hs]
    · intro hb hs
      simp [refPrice, hb, hs]
    · intro hs hb
      simp [refPrice, hb, hs]
    · intro hb hs
      simp [refPrice, hb, hs]
  · simp [calculate_pnl, flatOrders, addInv]
    norm_num

theorem C2_settlement_pnl_witness :
    calculate_pnl [[(("X"), [⟨"X", 100, 5⟩, ⟨"X", 105, -5⟩])]]
        (fun _ => ⟨[(99, 2)], [(101, -3)]⟩)
      = specCash [[(("X"), [⟨"X", 100, 5⟩, ⟨"X", 105, -5⟩])]] +
        ((netInventory [[(("X"), [⟨"X", 100, 5⟩, ⟨"X", 105, -5⟩])]]).map
          (fun sq => if sq.2 = 0 then 0 else (sq.2 : Rat) *
            refPrice ((fun _ => (⟨[(99, 2)], [(101, -3)]⟩ : Book)) sq.1))).sum
    ∧ refPrice ⟨[(99, 2)], [(101, -3)]⟩ =
        ((maxKey [((99 : Int), (2 : Int))] : Rat)
          + (minKey [((101 : Int), (-3 : Int))] : Rat)) / 2
    ∧ refPrice ⟨[], [(101, -3)]⟩ = (minKey [((101 : Int), (-3 : Int))] : Rat)
    ∧ refPrice ⟨[(99, 2)], []⟩ = (maxKey [((99 : Int), (2 : Int))] : Rat)
    ∧ refPrice ⟨[], []⟩ = 0 :=
  ⟨C2_settlement_pnl.1 [[(("X"), [⟨"X", 100, 5⟩, ⟨"X", 105, -5⟩])]]
      (fun _ => ⟨[(99, 2)], [(101, -3)]⟩),
   (C2_settlement_pnl.2.2.2.1 ⟨[(99, 2)], [(101, -3)]⟩).1 (by decide) (by decide),
   (C2_settlement_pnl.2.2.2.1 ⟨[], [(101, -3)]⟩).2.1 rfl (by decide),
   (C2_settlement_pnl.2.2.2.1 ⟨[(99, 2)], []⟩).2.2.1 rfl (by decide),
   (C2_settlement_pnl.2.2.2.1 ⟨[], []⟩).2.2.2 rfl rfl⟩

end Prosperity


